import Mathlib

/-!
# Schemata: temporary test schemas (factory.go)

A shallow embedding of `factory.go`: the `Factory` record, its name generator
`newSchemaName`, the provisioning operation `NewSchema` and the teardown
operation `Close`, over an abstract database driver whose every call may
succeed or fail. Go's `int` is taken at its width on 64-bit targets, 64 bits,
with the wrap-around the language defines for signed overflow. The file has
the definitions first, then helper lemmas, then one section of theorems per
operation.
-/

namespace Schemata

/-! ## Go's `int` and `fmt.Sprintf("%d", ...)` -/

/-- Largest value of Go's `int` on a 64-bit target: `2^63 - 1`. -/
def maxInt : Int := 9223372036854775807

/-- Smallest value of Go's `int` on a 64-bit target: `-2^63`. -/
def minInt : Int := -9223372036854775808

/-- Two's-complement wrap-around of a mathematical integer into the range of
Go's 64-bit `int`; Go defines signed overflow of `+` and `++` this way. -/
def wrapInt (x : Int) : Int :=
  (x + 9223372036854775808) % 18446744073709551616 - 9223372036854775808

/-- The verb `%d` of `fmt.Sprintf` on an `int`: decimal digits, with a leading
minus sign for a negative value. -/
def fmtD (n : Int) : String := Int.repr n

/-! ## The factory -/

/-- Handle of a connection pool (`*sql.DB`). -/
abbrev DB := Nat

/-- Handle of a checked-out connection (`*sql.Conn`). -/
abbrev Conn := Nat

/-- The struct `Factory`. The field `prefix` of the source is `namePrefix`
here. The field `mux` is left out: it is unlocked whenever no call of
`newSchemaName` is running, and one sequential call locks and unlocks it. -/
structure Factory where
  pool : DB
  srcSchema : String
  namePrefix : String
  schemaNumber : Int
  deriving DecidableEq, Repr

/-- The constructor `NewFactory`: `schemaNumber` gets Go's zero value. -/
def NewFactory (pool : DB) (sourceSchema : String) (testSchemaNamePrefix : String) : Factory :=
  { pool := pool, srcSchema := sourceSchema, namePrefix := testSchemaNamePrefix,
    schemaNumber := 0 }

/-- The method `newSchemaName`: formats `"%s_%d"` from the prefix and the
counter, then increments the counter (`f.schemaNumber++`, wrapping as Go's
`int` does). Returns the name and the updated factory. -/
def newSchemaName (f : Factory) : String × Factory :=
  let sn := f.namePrefix ++ "_" ++ fmtD f.schemaNumber
  (sn, { f with schemaNumber := wrapInt (f.schemaNumber + 1) })

/-! ## The database driver and the world -/

/-- One call made on a connection. -/
inductive Event where
  /-- A call of `conn.ExecContext` with the statement `sql`. -/
  | exec (conn : Conn) (sql : String)
  /-- A call of `conn.QueryRowContext` with the query `sql`, followed by `Scan`. -/
  | queryRow (conn : Conn) (sql : String)
  /-- A call of `conn.Close`. -/
  | close (conn : Conn)
  deriving DecidableEq, Repr

/-- The external collaborators (`database/sql`), over an arbitrary state `σ`:
each call sees the current state and returns the next one. An `error` is its
message. -/
structure Driver (σ : Type) where
  /-- The call `pool.Conn(ctx)`: a connection or an error. -/
  conn : σ → DB → σ × Except String Conn
  /-- The call `conn.ExecContext(ctx, sql)`: `none` is success. -/
  execContext : σ → Conn → String → σ × Option String
  /-- The call `conn.QueryRowContext(ctx, sql)` and `Scan` into one string. -/
  queryRowScan : σ → Conn → String → σ × Except String String
  /-- The call `conn.Close()`, whose result the source ignores. -/
  close : σ → Conn → σ

/-- What a run can change outside the factory: the driver state, the calls
made on connections so far, and standard output. -/
structure World (σ : Type) where
  db : σ
  trace : List Event
  stdout : List String

/-- How a method taking `t *testing.T` ends: it returns a value, or it calls
`t.Fatal`/`t.Fatalf`, which logs the message and stops the test (the `return`
written after it is never reached). -/
inductive Result (α : Type) where
  | ok (a : α)
  | fatal (msg : String)
  deriving DecidableEq, Repr

variable {σ : Type}

/-- The call `conn.ExecContext(context.Background(), sql)` in a world. -/
def execContext (d : Driver σ) (w : World σ) (conn : Conn) (sql : String) :
    World σ × Option String :=
  ({ w with db := (d.execContext w.db conn sql).1, trace := w.trace ++ [Event.exec conn sql] },
   (d.execContext w.db conn sql).2)

/-- The call `conn.QueryRowContext(context.Background(), sql)` with `res.Scan(&tmpname)`. -/
def queryRowScan (d : Driver σ) (w : World σ) (conn : Conn) (sql : String) :
    World σ × Except String String :=
  ({ w with db := (d.queryRowScan w.db conn sql).1,
            trace := w.trace ++ [Event.queryRow conn sql] },
   (d.queryRowScan w.db conn sql).2)

/-- The call `conn.Close()` in a world. -/
def connClose (d : Driver σ) (w : World σ) (conn : Conn) : World σ :=
  { w with db := d.close w.db conn, trace := w.trace ++ [Event.close conn] }

/-- The call `fmt.Println(s)`. -/
def println (w : World σ) (s : String) : World σ :=
  { w with stdout := w.stdout ++ [s ++ "\n"] }

/-- The statement built by the `fmt.Sprintf` in the loop of `NewSchema`. -/
def createTableSQL (name tblname srcSchema : String) : String :=
  "create table " ++ name ++ "." ++ tblname ++ " (like " ++ srcSchema ++ "." ++ tblname
    ++ " including all)"

/-- The `for _, tblname := range srcTableList` loop of `NewSchema`: `some err`
when an iteration took the failure branch (`conn.Close(); t.Fatal(err)`),
`none` when the loop ran to its end. -/
def createTables (d : Driver σ) (srcSchema name : String) (conn : Conn) :
    World σ → List String → World σ × Option String
  | w, [] => (w, none)
  | w, tblname :: rest =>
    let sql := createTableSQL name tblname srcSchema
    let w1 := println w sql
    match (execContext d w1 conn sql).2 with
    | some err => (connClose d (execContext d w1 conn sql).1 conn, some err)
    | none => createTables d srcSchema name conn (execContext d w1 conn sql).1 rest

/-- The method `NewSchema`. Returns the factory and the world after the call
and how the call ended. -/
def NewSchema (d : Driver σ) (f : Factory) (w : World σ) (srcTableList : List String) :
    Factory × World σ × Result Conn :=
  match (d.conn w.db f.pool).2 with
  | .error err => (f, { w with db := (d.conn w.db f.pool).1 }, .fatal err)
  | .ok conn =>
    let w0 : World σ := { w with db := (d.conn w.db f.pool).1 }
    let name := (newSchemaName f).1
    let f1 := (newSchemaName f).2
    let r1 := execContext d w0 conn ("create schema " ++ name)
    match r1.2 with
    | some err => (f1, connClose d r1.1 conn, .fatal err)
    | none =>
      let r2 := execContext d r1.1 conn ("set schema '" ++ name ++ "'")
      match r2.2 with
      | some err => (f1, connClose d r2.1 conn, .fatal err)
      | none =>
        let r3 := createTables d f1.srcSchema name conn r2.1 srcTableList
        match r3.2 with
        | some err => (f1, r3.1, .fatal err)
        | none => (f1, r3.1, .ok conn)

/-- The message of the `t.Fatalf` in `Close`. -/
def sameSchemaMsg (tmpname : String) : String :=
  "found current schema was " ++ tmpname ++ " (same as source schema), expected something else"

/-- The method `Close`. It does not write to the factory. -/
def Close (d : Driver σ) (f : Factory) (w : World σ) (conn : Conn) :
    World σ × Result Unit :=
  let r := queryRowScan d w conn "select current_schema()"
  match r.2 with
  | .error err => (r.1, .fatal err)
  | .ok tmpname =>
    if tmpname = f.srcSchema then (r.1, .fatal (sameSchemaMsg tmpname))
    else
      let r2 := execContext d r.1 conn ("drop schema " ++ tmpname ++ " cascade")
      match r2.2 with
      | some err => (r2.1, .fatal err)
      | none => (r2.1, .ok ())

/-! ## Sequences of calls -/

/-- The names returned by `N` successive calls of `newSchemaName`. -/
def successiveNames : Nat → Factory → List String
  | 0, _ => []
  | N + 1, f => (newSchemaName f).1 :: successiveNames N (newSchemaName f).2

/-- A call of one of the two exported methods. -/
inductive Call where
  | newSchema (srcTableList : List String)
  | close (conn : Conn)
  deriving DecidableEq, Repr

/-- One call on a factory and a world; how it ended is dropped. -/
def runCall (d : Driver σ) (s : Factory × World σ) : Call → Factory × World σ
  | .newSchema tbls => ((NewSchema d s.1 s.2 tbls).1, (NewSchema d s.1 s.2 tbls).2.1)
  | .close conn => (s.1, (Close d s.1 s.2 conn).1)

/-- A finite sequence of calls, one after the other. -/
def runCalls (d : Driver σ) (s : Factory × World σ) (calls : List Call) : Factory × World σ :=
  calls.foldl (runCall d) s

/-- A driver for examples: the state counts the statements executed so far,
the statement number `k` (from 0) fails with `"boom"`, the pool always hands
out connection 7, and the current schema is always `cur`. -/
def scripted (k : Nat) (cur : String) : Driver Nat where
  conn s _ := (s, .ok 7)
  execContext s _ _ := (s + 1, if s = k then some "boom" else none)
  queryRowScan s _ _ := (s, .ok cur)
  close s _ := s

/-- A driver whose pool has no connection to give. -/
def noConn : Driver Nat where
  conn s _ := (s, .error "pool exhausted")
  execContext s _ _ := (s + 1, none)
  queryRowScan s _ _ := (s, .error "no rows")
  close s _ := s

/-- A factory whose counter has reached the largest `int`. -/
def exhausted : Factory :=
  { pool := 0, srcSchema := "public", namePrefix := "t", schemaNumber := 9223372036854775807 }

/-- The world before anything happened. -/
def World.init (db : σ) : World σ := { db := db, trace := [], stdout := [] }

/-! ## Reading a `%d` rendering back: definitions -/

/-- Value of one decimal digit character. -/
def digitVal (c : Char) : Nat := c.toNat - 48

/-- Value of a list of decimal digits, most significant first. -/
def decodeNat (l : List Char) : Nat := l.foldl (fun a c => 10 * a + digitVal c) 0

/-- Reads back what `fmtD` writes: an optional minus sign, then digits. -/
def parseD (s : String) : Int :=
  match s.data with
  | '-' :: ds => -(decodeNat ds : Int)
  | ds => (decodeNat ds : Int)

/-! ## The counter over successive calls -/

/-- The counter value seen by call number `i` (from 0) on a factory whose
counter starts at `n`: each earlier call incremented it with wrap-around. -/
def counterAt (n : Int) (i : Nat) : Int := if i = 0 then n else wrapInt (n + i)

/-! ## Vocabulary of the specification -/

/-- The statements a provisioning call is specified to issue for the schema
name `s`, in order: create the schema, make it current, then one
`create table ... like` per table name in the caller's order. -/
def provisionStmts (src s : String) (tables : List String) : List String :=
  ("create schema " ++ s) :: ("set schema '" ++ s ++ "'") ::
    tables.map (fun t =>
      "create table " ++ s ++ "." ++ t ++ " (like " ++ src ++ "." ++ t ++ " including all)")

/-- The driver state after the statements `qs` were executed in order on `conn`. -/
def dbAfter (d : Driver σ) (conn : Conn) : σ → List String → σ
  | s, [] => s
  | s, q :: qs => dbAfter d conn (d.execContext s conn q).1 qs

/-- Every statement of `qs` succeeds when they are executed in order on `conn`
from the driver state `s`. -/
def AllSucceed (d : Driver σ) (conn : Conn) : σ → List String → Prop
  | _, [] => True
  | s, q :: qs => (d.execContext s conn q).2 = none ∧ AllSucceed d conn (d.execContext s conn q).1 qs

/-- The string `s` begins with the string `p`. -/
def startsWith (p s : String) : Prop := p.data <+: s.data

instance (p s : String) : Decidable (startsWith p s) := by
  unfold startsWith; infer_instance

/-- The schema name of a `create schema` statement, `none` for another statement. -/
def createSchemaName? (sql : String) : Option String :=
  if startsWith "create schema " sql then some ⟨sql.data.drop 14⟩ else none

/-- The schema names of the `create schema` statements executed in a trace, in order. -/
def createdSchemas (tr : List Event) : List String :=
  tr.filterMap fun e =>
    match e with
    | .exec _ sql => createSchemaName? sql
    | _ => none

/-- Whether the call `c`, made in the state `s`, is a `NewSchema` to which the
pool hands out a connection. -/
def acquires (d : Driver σ) (s : Factory × World σ) : Call → Bool
  | .newSchema _ =>
    match (d.conn s.2.db s.1.pool).2 with
    | .ok _ => true
    | .error _ => false
  | .close _ => false

/-- The number of `NewSchema` calls that get a connection when the sequence
`calls` runs from the state `s`. -/
def acquisitions (d : Driver σ) : Factory × World σ → List Call → Nat
  | _, [] => 0
  | s, c :: cs => (if acquires d s c then 1 else 0) + acquisitions d (runCall d s c) cs

/-! ## Lemmas: reading a rendering back -/

theorem digitVal_digitChar (k : Nat) (h : k < 10) : digitVal (Nat.digitChar k) = k := by
  interval_cases k <;> rfl

theorem digitChar_ne_minus (k : Nat) (h : k < 10) : Nat.digitChar k ≠ '-' := by
  interval_cases k <;> decide

theorem foldl_toDigitsCore (fuel : Nat) : ∀ (n : Nat) (ds : List Char), n < fuel →
    List.foldl (fun a c => 10 * a + digitVal c) 0 (Nat.toDigitsCore 10 fuel n ds)
      = List.foldl (fun a c => 10 * a + digitVal c) n ds := by
  induction fuel with
  | zero => intro n ds h; omega
  | succ fuel ih =>
    intro n ds h
    simp only [Nat.toDigitsCore]
    split
    · rename_i h0
      simp only [List.foldl_cons, Nat.mul_zero, Nat.zero_add]
      rw [digitVal_digitChar _ (Nat.mod_lt _ (by decide))]
      congr 1
      omega
    · rename_i h0
      rw [ih (n / 10) _ (by omega)]
      simp only [List.foldl_cons]
      rw [digitVal_digitChar _ (Nat.mod_lt _ (by decide))]
      congr 1
      omega

theorem toDigitsCore_no_minus (fuel : Nat) : ∀ (n : Nat) (ds : List Char),
    (∀ c ∈ ds, c ≠ '-') → ∀ c ∈ Nat.toDigitsCore 10 fuel n ds, c ≠ '-' := by
  induction fuel with
  | zero => intro n ds h; simpa [Nat.toDigitsCore] using h
  | succ fuel ih =>
    intro n ds h
    have hd : ∀ c ∈ Nat.digitChar (n % 10) :: ds, c ≠ '-' := by
      intro c hc
      rcases List.mem_cons.1 hc with rfl | hc
      · exact digitChar_ne_minus _ (Nat.mod_lt _ (by decide))
      · exact h c hc
    simp only [Nat.toDigitsCore]
    split
    · exact hd
    · exact ih _ _ hd

theorem decodeNat_toDigits (n : Nat) : decodeNat (Nat.toDigits 10 n) = n := by
  unfold decodeNat Nat.toDigits
  rw [foldl_toDigitsCore (n + 1) n [] (by omega)]
  rfl

theorem parseD_fmtD (n : Int) : parseD (fmtD n) = n := by
  cases n with
  | ofNat m =>
    have hdata : (fmtD (Int.ofNat m)).data = Nat.toDigits 10 m := rfl
    unfold parseD
    rw [hdata]
    split
    · rename_i ds heq
      have := toDigitsCore_no_minus (m + 1) m [] (by simp) '-' (by
        show '-' ∈ Nat.toDigits 10 m
        rw [heq]; simp)
      exact absurd rfl this
    · simp [decodeNat_toDigits]
  | negSucc m =>
    have hdata : (fmtD (Int.negSucc m)).data = '-' :: Nat.toDigits 10 (m + 1) := rfl
    unfold parseD
    rw [hdata]
    simp only [decodeNat_toDigits]
    rfl

/-- Two integers with the same `%d` rendering are equal. -/
theorem fmtD_injective : Function.Injective fmtD :=
  Function.LeftInverse.injective parseD_fmtD

/-- Over one prefix, `"%s_%d"` is injective in the number. -/
theorem name_injective (p : String) (a b : Int)
    (h : p ++ "_" ++ fmtD a = p ++ "_" ++ fmtD b) : a = b := by
  have h2 := congrArg String.data h
  simp only [String.data_append, List.append_assoc] at h2
  have h3 := List.append_cancel_left (List.append_cancel_left h2)
  exact fmtD_injective (String.ext h3)

/-! ## Lemmas: the counter over successive calls -/

theorem counterAt_succ (n : Int) (i : Nat) :
    counterAt (wrapInt (n + 1)) i = counterAt n (i + 1) := by
  unfold counterAt wrapInt
  split <;> simp <;> omega

theorem counterAt_injOn (n : Int) (i j : Nat) (hi : i < 18446744073709551616)
    (hj : j < 18446744073709551616) (h : counterAt n i = counterAt n j) : i = j := by
  unfold counterAt wrapInt at h
  split at h <;> split at h <;> omega

theorem successiveNames_eq (N : Nat) : ∀ f : Factory,
    successiveNames N f
      = (List.range N).map (fun i => f.namePrefix ++ "_" ++ fmtD (counterAt f.schemaNumber i)) := by
  induction N with
  | zero => intro f; rfl
  | succ N ih =>
    intro f
    rw [successiveNames, ih, List.range_succ_eq_map]
    simp only [List.map_cons, List.map_map, newSchemaName]
    refine congrArg₂ _ ?_ ?_
    · simp [counterAt]
    · apply List.map_congr_left
      intro i _
      simp only [Function.comp, counterAt_succ]

/-! ## Lemmas: worlds -/

@[simp] theorem execContext_trace (d : Driver σ) (w : World σ) (c : Conn) (q : String) :
    (execContext d w c q).1.trace = w.trace ++ [Event.exec c q] := rfl

@[simp] theorem execContext_db (d : Driver σ) (w : World σ) (c : Conn) (q : String) :
    (execContext d w c q).1.db = (d.execContext w.db c q).1 := rfl

@[simp] theorem execContext_snd (d : Driver σ) (w : World σ) (c : Conn) (q : String) :
    (execContext d w c q).2 = (d.execContext w.db c q).2 := rfl

@[simp] theorem queryRowScan_trace (d : Driver σ) (w : World σ) (c : Conn) (q : String) :
    (queryRowScan d w c q).1.trace = w.trace ++ [Event.queryRow c q] := rfl

@[simp] theorem queryRowScan_db (d : Driver σ) (w : World σ) (c : Conn) (q : String) :
    (queryRowScan d w c q).1.db = (d.queryRowScan w.db c q).1 := rfl

@[simp] theorem queryRowScan_snd (d : Driver σ) (w : World σ) (c : Conn) (q : String) :
    (queryRowScan d w c q).2 = (d.queryRowScan w.db c q).2 := rfl

@[simp] theorem connClose_trace (d : Driver σ) (w : World σ) (c : Conn) :
    (connClose d w c).trace = w.trace ++ [Event.close c] := rfl

@[simp] theorem connClose_db (d : Driver σ) (w : World σ) (c : Conn) :
    (connClose d w c).db = d.close w.db c := rfl

@[simp] theorem println_trace (w : World σ) (s : String) : (println w s).trace = w.trace := rfl

@[simp] theorem println_db (w : World σ) (s : String) : (println w s).db = w.db := rfl

/-! ## Lemmas: statements and their prefixes -/

theorem createSchemaName_create (n : String) :
    createSchemaName? ("create schema " ++ n) = some n := by
  unfold createSchemaName? startsWith
  simp [String.data_append]

theorem createSchemaName_set (n : String) :
    createSchemaName? ("set schema '" ++ n ++ "'") = none := by
  unfold createSchemaName? startsWith
  simp [String.data_append]

theorem createSchemaName_drop (n : String) :
    createSchemaName? ("drop schema " ++ n ++ " cascade") = none := by
  unfold createSchemaName? startsWith
  simp [String.data_append]

theorem createSchemaName_table (n t src : String) :
    createSchemaName? (createTableSQL n t src) = none := by
  unfold createSchemaName? startsWith createTableSQL
  simp [String.data_append]

theorem provisionStmts_not_drop (src s : String) (tables : List String) :
    ∀ q ∈ provisionStmts src s tables, ¬ startsWith "drop schema" q := by
  intro q hq
  unfold provisionStmts at hq
  simp only [List.mem_cons, List.mem_map] at hq
  rcases hq with rfl | rfl | ⟨t, _, rfl⟩ <;>
    (unfold startsWith; simp [String.data_append])

/-! ## Lemmas: the table loop -/

theorem createTables_ok (d : Driver σ) (src name : String) (conn : Conn) :
    ∀ (tables : List String) (w : World σ),
      AllSucceed d conn w.db (tables.map fun t => createTableSQL name t src) →
      (createTables d src name conn w tables).2 = none ∧
      (createTables d src name conn w tables).1.trace
        = w.trace ++ tables.map (fun t => Event.exec conn (createTableSQL name t src)) := by
  intro tables
  induction tables with
  | nil => intro w _; simp [createTables]
  | cons t rest ih =>
    intro w h
    obtain ⟨h1, h2⟩ := h
    have hx : (execContext d (println w (createTableSQL name t src)) conn
        (createTableSQL name t src)).2 = none := h1
    rw [createTables]
    simp only [hx]
    have := ih (execContext d (println w (createTableSQL name t src)) conn
        (createTableSQL name t src)).1 h2
    refine ⟨this.1, ?_⟩
    rw [this.2]
    simp

theorem createTables_fail (d : Driver σ) (src name : String) (conn : Conn) (err : String) :
    ∀ (pre tables : List String) (q : String) (post : List String) (w : World σ),
      (tables.map fun t => createTableSQL name t src) = pre ++ q :: post →
      AllSucceed d conn w.db pre →
      (d.execContext (dbAfter d conn w.db pre) conn q).2 = some err →
      (createTables d src name conn w tables).2 = some err ∧
      (createTables d src name conn w tables).1.trace
        = w.trace ++ (pre ++ [q]).map (Event.exec conn) ++ [Event.close conn] := by
  intro pre
  induction pre with
  | nil =>
    intro tables q post w hsplit _ hfail
    cases tables with
    | nil => simp at hsplit
    | cons t rest =>
      simp only [List.map_cons, List.nil_append, List.cons.injEq] at hsplit
      obtain ⟨rfl, _⟩ := hsplit
      have hx : (execContext d (println w (createTableSQL name t src)) conn
          (createTableSQL name t src)).2 = some err := hfail
      rw [createTables]
      simp only [hx]
      simp
  | cons p pre ih =>
    intro tables q post w hsplit hall hfail
    cases tables with
    | nil => simp at hsplit
    | cons t rest =>
      simp only [List.map_cons, List.cons_append, List.cons.injEq] at hsplit
      obtain ⟨rfl, hrest⟩ := hsplit
      obtain ⟨h1, h2⟩ := hall
      have hx : (execContext d (println w (createTableSQL name t src)) conn
          (createTableSQL name t src)).2 = none := h1
      rw [createTables]
      simp only [hx]
      have := ih rest q post (execContext d (println w (createTableSQL name t src)) conn
          (createTableSQL name t src)).1 hrest h2 hfail
      refine ⟨this.1, ?_⟩
      rw [this.2]
      simp

/-- Whatever the driver does, the loop appends only `create table` statements
of the listed tables and at most a `close`. -/
theorem createTables_events (d : Driver σ) (src name : String) (conn : Conn) :
    ∀ (tables : List String) (w : World σ),
      ∃ evs, (createTables d src name conn w tables).1.trace = w.trace ++ evs ∧
        ∀ e ∈ evs, e = Event.close conn ∨
          ∃ t ∈ tables, e = Event.exec conn (createTableSQL name t src) := by
  intro tables
  induction tables with
  | nil => intro w; exact ⟨[], by simp [createTables]⟩
  | cons t rest ih =>
    intro w
    rw [createTables]
    split
    · refine ⟨[Event.exec conn (createTableSQL name t src), Event.close conn], by simp, ?_⟩
      intro e he
      simp only [List.mem_cons, List.mem_singleton, List.not_mem_nil, or_false] at he
      rcases he with rfl | rfl
      · exact Or.inr ⟨t, by simp, rfl⟩
      · exact Or.inl rfl
    · obtain ⟨evs, h1, h2⟩ := ih (execContext d (println w (createTableSQL name t src)) conn
          (createTableSQL name t src)).1
      refine ⟨Event.exec conn (createTableSQL name t src) :: evs, by rw [h1]; simp, ?_⟩
      intro e he
      rcases List.mem_cons.1 he with rfl | he
      · exact Or.inr ⟨t, by simp, rfl⟩
      · rcases h2 e he with h | ⟨t2, ht2, h⟩
        · exact Or.inl h
        · exact Or.inr ⟨t2, List.mem_cons_of_mem _ ht2, h⟩

/-! ## Lemmas: what one call appends to the trace -/

theorem createdSchemas_append (a b : List Event) :
    createdSchemas (a ++ b) = createdSchemas a ++ createdSchemas b := by
  simp [createdSchemas]

theorem createdSchemas_tables (evs : List Event) (conn : Conn) (name src : String)
    (tables : List String)
    (h : ∀ e ∈ evs, e = Event.close conn ∨
      ∃ t ∈ tables, e = Event.exec conn (createTableSQL name t src)) :
    createdSchemas evs = [] := by
  unfold createdSchemas
  rw [List.filterMap_eq_nil_iff]
  intro e he
  rcases h e he with rfl | ⟨t, _, rfl⟩
  · rfl
  · exact createSchemaName_table name t src

theorem Close_events (d : Driver σ) (f : Factory) (w : World σ) (conn : Conn) :
    ∃ evs, (Close d f w conn).1.trace = w.trace ++ evs ∧
      (∀ c, Event.close c ∉ evs) ∧
      evs.count (Event.close conn) = 0 ∧
      ∀ e ∈ evs, e = Event.queryRow conn "select current_schema()" ∨
        ∃ n, e = Event.exec conn ("drop schema " ++ n ++ " cascade") := by
  cases hq : (queryRowScan d w conn "select current_schema()").2 with
  | error e =>
    unfold Close
    simp only [hq]
    exact ⟨[Event.queryRow conn "select current_schema()"], by simp, by simp, by simp, by simp⟩
  | ok tmpname =>
    by_cases hs : tmpname = f.srcSchema
    · unfold Close
      simp only [hq, if_pos hs]
      exact ⟨[Event.queryRow conn "select current_schema()"], by simp, by simp, by simp, by simp⟩
    · cases hy : (execContext d (queryRowScan d w conn "select current_schema()").1 conn
          ("drop schema " ++ tmpname ++ " cascade")).2 with
      | none =>
        unfold Close
        simp only [hq, if_neg hs, hy]
        exact ⟨[Event.queryRow conn "select current_schema()",
          Event.exec conn ("drop schema " ++ tmpname ++ " cascade")], by simp, by simp, by simp,
          by simpa using ⟨tmpname, rfl⟩⟩
      | some e =>
        unfold Close
        simp only [hq, if_neg hs, hy]
        exact ⟨[Event.queryRow conn "select current_schema()",
          Event.exec conn ("drop schema " ++ tmpname ++ " cascade")], by simp, by simp, by simp,
          by simpa using ⟨tmpname, rfl⟩⟩

theorem Close_created (d : Driver σ) (f : Factory) (w : World σ) (conn : Conn) :
    ∃ evs, (Close d f w conn).1.trace = w.trace ++ evs ∧ createdSchemas evs = [] := by
  obtain ⟨evs, h1, _, _, h4⟩ := Close_events d f w conn
  refine ⟨evs, h1, ?_⟩
  unfold createdSchemas
  rw [List.filterMap_eq_nil_iff]
  intro e he
  rcases h4 e he with rfl | ⟨n, rfl⟩
  · rfl
  · exact createSchemaName_drop n

theorem NewSchema_factory (d : Driver σ) (f : Factory) (w : World σ) (tables : List String) :
    (NewSchema d f w tables).1
      = match (d.conn w.db f.pool).2 with
        | .ok _ => (newSchemaName f).2
        | .error _ => f := by
  cases hconn : (d.conn w.db f.pool).2 with
  | error e => unfold NewSchema; simp only [hconn]
  | ok conn =>
    unfold NewSchema
    simp only [hconn]
    split
    · rfl
    · split
      · rfl
      · split <;> rfl

theorem NewSchema_created (d : Driver σ) (f : Factory) (w : World σ) (tables : List String) :
    ∃ evs, (NewSchema d f w tables).2.1.trace = w.trace ++ evs ∧
      createdSchemas evs
        = match (d.conn w.db f.pool).2 with
          | .ok _ => [(newSchemaName f).1]
          | .error _ => [] := by
  cases hconn : (d.conn w.db f.pool).2 with
  | error e =>
    refine ⟨[], ?_, rfl⟩
    unfold NewSchema
    simp only [hconn]
    simp
  | ok conn =>
    have hc : createdSchemas [Event.exec conn ("create schema " ++ (newSchemaName f).1)]
        = [(newSchemaName f).1] := by
      simp [createdSchemas, createSchemaName_create]
    have hs : createdSchemas [Event.exec conn ("set schema '" ++ (newSchemaName f).1 ++ "'")]
        = [] := by
      simp [createdSchemas, createSchemaName_set]
    have hcl : createdSchemas [Event.close conn] = [] := rfl
    unfold NewSchema
    simp only [hconn]
    split
    · refine ⟨[Event.exec conn ("create schema " ++ (newSchemaName f).1)] ++ [Event.close conn],
        by simp, ?_⟩
      rw [createdSchemas_append, hc, hcl]; rfl
    · split
      · refine ⟨[Event.exec conn ("create schema " ++ (newSchemaName f).1)] ++
          ([Event.exec conn ("set schema '" ++ (newSchemaName f).1 ++ "'")] ++ [Event.close conn]),
          by simp, ?_⟩
        rw [createdSchemas_append, createdSchemas_append, hc, hs, hcl]; rfl
      · obtain ⟨evs, h1, h2⟩ := createTables_events d (newSchemaName f).2.srcSchema
          (newSchemaName f).1 conn tables
          (execContext d (execContext d { w with db := (d.conn w.db f.pool).1 } conn
            ("create schema " ++ (newSchemaName f).1)).1 conn
            ("set schema '" ++ (newSchemaName f).1 ++ "'")).1
        have h3 := createdSchemas_tables evs conn _ _ tables h2
        have htr : ∀ r : Result Conn, ((newSchemaName f).2,
            (createTables d (newSchemaName f).2.srcSchema (newSchemaName f).1 conn
              (execContext d (execContext d { w with db := (d.conn w.db f.pool).1 } conn
                ("create schema " ++ (newSchemaName f).1)).1 conn
                ("set schema '" ++ (newSchemaName f).1 ++ "'")).1 tables).1, r).2.1.trace
            = w.trace ++ ([Event.exec conn ("create schema " ++ (newSchemaName f).1)] ++
              ([Event.exec conn ("set schema '" ++ (newSchemaName f).1 ++ "'")] ++ evs)) := by
          intro r
          simp only [h1]
          simp
        have hcr : createdSchemas ([Event.exec conn ("create schema " ++ (newSchemaName f).1)] ++
              ([Event.exec conn ("set schema '" ++ (newSchemaName f).1 ++ "'")] ++ evs))
            = [(newSchemaName f).1] := by
          rw [createdSchemas_append, createdSchemas_append, hc, hs, h3]; rfl
        split
        · exact ⟨_, htr _, hcr⟩
        · exact ⟨_, htr _, hcr⟩

/-! ## Lemmas: sequences of calls -/

theorem wrapInt_of_inRange (x : Int) (hlo : minInt ≤ x) (hhi : x ≤ maxInt) : wrapInt x = x := by
  unfold wrapInt
  unfold minInt at hlo
  unfold maxInt at hhi
  omega

theorem acquisitions_append (d : Driver σ) : ∀ (a : List Call) (s : Factory × World σ)
    (b : List Call),
    acquisitions d s (a ++ b) = acquisitions d s a + acquisitions d (runCalls d s a) b := by
  intro a
  induction a with
  | nil => intro s b; simp [acquisitions, runCalls]
  | cons c cs ih =>
    intro s b
    show (if acquires d s c then 1 else 0) + acquisitions d (runCall d s c) (cs ++ b)
      = (if acquires d s c then 1 else 0) + acquisitions d (runCall d s c) cs
        + acquisitions d (runCalls d (runCall d s c) cs) b
    rw [ih]
    omega

/-- While the counter does not overflow, a sequence of calls in which `k`
calls of `NewSchema` got a connection leaves the counter `k` higher and has
issued `create schema` for exactly the `k` names of the counter values passed. -/
theorem runCalls_invariant (d : Driver σ) : ∀ (calls : List Call) (f : Factory) (w : World σ),
    minInt ≤ f.schemaNumber → f.schemaNumber + acquisitions d (f, w) calls ≤ maxInt →
    (runCalls d (f, w) calls).1
      = { f with schemaNumber := f.schemaNumber + acquisitions d (f, w) calls } ∧
    ∃ evs, (runCalls d (f, w) calls).2.trace = w.trace ++ evs ∧
      createdSchemas evs
        = (List.range (acquisitions d (f, w) calls)).map
            (fun i : Nat => f.namePrefix ++ "_" ++ fmtD (f.schemaNumber + i)) := by
  intro calls
  induction calls with
  | nil =>
    intro f w _ _
    exact ⟨by simp [runCalls, acquisitions], [], by simp [runCalls], rfl⟩
  | cons c cs ih =>
    intro f w hlo hhi
    have hstep : runCalls d (f, w) (c :: cs) = runCalls d (runCall d (f, w) c) cs := rfl
    have hacq : acquisitions d (f, w) (c :: cs)
        = (if acquires d (f, w) c then 1 else 0) + acquisitions d (runCall d (f, w) c) cs := rfl
    rw [hstep, hacq]
    rw [hacq] at hhi
    cases c with
    | close conn =>
      have hno : acquires d (f, w) (Call.close conn) = false := rfl
      have hrun : runCall d (f, w) (Call.close conn) = (f, (Close d f w conn).1) := rfl
      simp only [hno, hrun, Bool.false_eq_true, if_false, Nat.zero_add] at hhi ⊢
      obtain ⟨evs0, h0, hc0⟩ := Close_created d f w conn
      obtain ⟨hf, evs, htr, hcr⟩ := ih f (Close d f w conn).1 hlo hhi
      refine ⟨hf, evs0 ++ evs, ?_, ?_⟩
      · rw [htr, h0, List.append_assoc]
      · rw [createdSchemas_append, hc0, hcr, List.nil_append]
    | newSchema tbls =>
      obtain ⟨evs0, h0, hc0⟩ := NewSchema_created d f w tbls
      have hfac := NewSchema_factory d f w tbls
      have hrun : runCall d (f, w) (Call.newSchema tbls)
          = ((NewSchema d f w tbls).1, (NewSchema d f w tbls).2.1) := rfl
      have hdef : acquires d (f, w) (Call.newSchema tbls)
          = match (d.conn w.db f.pool).2 with
            | .ok _ => true
            | .error _ => false := rfl
      rw [hrun, hdef] at hhi ⊢
      cases hconn : (d.conn w.db f.pool).2 with
      | error e =>
        simp only [hconn] at hfac hc0 hhi ⊢
        rw [hfac] at hhi ⊢
        simp only [Bool.false_eq_true, if_false, Nat.zero_add] at hhi ⊢
        obtain ⟨hf, evs, htr, hcr⟩ := ih f (NewSchema d f w tbls).2.1 hlo hhi
        refine ⟨hf, evs0 ++ evs, ?_, ?_⟩
        · rw [htr, h0, List.append_assoc]
        · rw [createdSchemas_append, hc0, hcr, List.nil_append]
      | ok conn =>
        simp only [hconn] at hfac hc0 hhi ⊢
        rw [hfac] at hhi ⊢
        simp only [if_true] at hhi ⊢
        have hw : wrapInt (f.schemaNumber + 1) = f.schemaNumber + 1 :=
          wrapInt_of_inRange _ (by omega) (by push_cast at hhi; omega)
        have hn : (newSchemaName f).2 = { f with schemaNumber := f.schemaNumber + 1 } := by
          simp [newSchemaName, hw]
        rw [hn] at hhi ⊢
        obtain ⟨hf, evs, htr, hcr⟩ :=
          ih { f with schemaNumber := f.schemaNumber + 1 } (NewSchema d f w tbls).2.1
            (by show minInt ≤ f.schemaNumber + 1; omega)
            (by show f.schemaNumber + 1 + _ ≤ maxInt; push_cast at hhi; omega)
        refine ⟨?_, evs0 ++ evs, ?_, ?_⟩
        · rw [hf]
          simp only [Factory.mk.injEq, true_and]
          push_cast
          omega
        · rw [htr, h0, List.append_assoc]
        · rw [createdSchemas_append, hc0, hcr, Nat.add_comm 1, List.range_succ_eq_map]
          simp only [List.map_cons, List.map_map, List.singleton_append, newSchemaName]
          refine congrArg₂ _ (by simp) ?_
          apply List.map_congr_left
          intro i _
          simp only [Function.comp]
          congr 2
          push_cast
          omega

theorem names_nodup (p : String) (n : Int) (k : Nat) :
    ((List.range k).map (fun i : Nat => p ++ "_" ++ fmtD (n + i))).Nodup := by
  apply List.Nodup.map_on _ (List.nodup_range k)
  intro i _ j _ h
  have := name_injective p _ _ h
  omega

/-! ## Name generation: `newSchemaName` -/

/-- C2 (amended): for a factory with prefix `p` and counter `n`, where `n` is
an `int` below the largest one, `newSchemaName` returns `p`, then `_`, then
the decimal rendering of `n`, and leaves the counter at `n + 1` with pool,
prefix and source schema unchanged; the first name of a factory built by
`NewFactory pool src p` is `p ++ "_0"`. -/
theorem newSchemaName_spec (f : Factory) (hlo : minInt ≤ f.schemaNumber)
    (hhi : f.schemaNumber < maxInt) :
    (newSchemaName f).1 = f.namePrefix ++ "_" ++ fmtD f.schemaNumber ∧
    (newSchemaName f).2.schemaNumber = f.schemaNumber + 1 ∧
    (newSchemaName f).2.namePrefix = f.namePrefix ∧
    (newSchemaName f).2.srcSchema = f.srcSchema ∧
    (newSchemaName f).2.pool = f.pool ∧
    (∀ (pool : DB) (src p : String), (newSchemaName (NewFactory pool src p)).1 = p ++ "_0") := by
  refine ⟨rfl, ?_, rfl, rfl, rfl, ?_⟩
  · show wrapInt (f.schemaNumber + 1) = f.schemaNumber + 1
    exact wrapInt_of_inRange _ (by omega) (by omega)
  · intro pool src p
    show p ++ "_" ++ fmtD 0 = p ++ "_0"
    rw [String.append_assoc]
    rfl

/-- C2 (witness): the factory built by `NewFactory 0 "public" "t"`. -/
theorem newSchemaName_spec_witness :
    (minInt ≤ (NewFactory 0 "public" "t").schemaNumber ∧
      (NewFactory 0 "public" "t").schemaNumber < maxInt) ∧
    (newSchemaName (NewFactory 0 "public" "t")).1 = "t_0" ∧
    (newSchemaName (NewFactory 0 "public" "t")).2.schemaNumber = 1 :=
  ⟨⟨by decide, by decide⟩,
    (newSchemaName_spec (NewFactory 0 "public" "t") (by decide) (by decide)).1,
    (newSchemaName_spec (NewFactory 0 "public" "t") (by decide) (by decide)).2.1⟩

/-- C2 (counterexample): at the largest `int` the name is still the prefix,
`_` and the counter, but the increment wraps around, so the counter after the
call is the smallest `int`, not `n + 1`. -/
theorem newSchemaName_wraps_at_maxInt :
    exhausted.schemaNumber = 9223372036854775807 ∧
    (newSchemaName exhausted).1 = "t_9223372036854775807" ∧
    (newSchemaName exhausted).2.schemaNumber = -9223372036854775808 ∧
    (newSchemaName exhausted).2.schemaNumber ≠ exhausted.schemaNumber + 1 := by
  decide

/-- C3 (amended): for every factory and every `N` up to `2^64`, the `N` names
returned by `N` successive calls of `newSchemaName` are pairwise distinct; the
map from counter value to name is injective, and the counter values seen by
two different calls among the first `2^64` differ. -/
theorem successiveNames_nodup (f : Factory) (N : Nat) (hN : N ≤ 18446744073709551616) :
    (successiveNames N f).Nodup ∧
    (successiveNames N f).length = N ∧
    (∀ a b : Int, f.namePrefix ++ "_" ++ fmtD a = f.namePrefix ++ "_" ++ fmtD b → a = b) ∧
    (∀ i j : Nat, i < N → j < N →
      counterAt f.schemaNumber i = counterAt f.schemaNumber j → i = j) := by
  have hinj : ∀ i j : Nat, i < N → j < N →
      counterAt f.schemaNumber i = counterAt f.schemaNumber j → i = j := by
    intro i j hi hj h
    exact counterAt_injOn f.schemaNumber i j (by omega) (by omega) h
  refine ⟨?_, ?_, fun a b h => name_injective _ a b h, hinj⟩
  · rw [successiveNames_eq]
    apply List.Nodup.map_on _ (List.nodup_range N)
    intro i hi j hj h
    exact hinj i j (List.mem_range.1 hi) (List.mem_range.1 hj) (name_injective _ _ _ h)
  · rw [successiveNames_eq]; simp

/-- C3 (witness): three successive names of a fresh factory. -/
theorem successiveNames_nodup_witness :
    3 ≤ 18446744073709551616 ∧ (successiveNames 3 (NewFactory 0 "public" "t")).Nodup :=
  ⟨by decide, (successiveNames_nodup (NewFactory 0 "public" "t") 3 (by decide)).1⟩

/-- C3 (counterexample): among `2^64 + 1` successive calls on a fresh factory,
call number 0 and call number `2^64` both return `"t_0"`, so the names are not
pairwise distinct. -/
theorem successiveNames_repeat_after_wrap :
    (successiveNames 18446744073709551617 (NewFactory 0 "public" "t"))[0]? = some "t_0" ∧
    (successiveNames 18446744073709551617
      (NewFactory 0 "public" "t"))[18446744073709551616]? = some "t_0" ∧
    ¬ (successiveNames 18446744073709551617 (NewFactory 0 "public" "t")).Nodup := by
  have h0 : counterAt 0 0 = 0 := by decide
  have h1 : counterAt 0 18446744073709551616 = 0 := by decide
  have hz : fmtD 0 = "0" := by decide
  have hf : (NewFactory 0 "public" "t").schemaNumber = 0 := rfl
  have hp : (NewFactory 0 "public" "t").namePrefix = "t" := rfl
  have hs : ("t" ++ "_" ++ "0" : String) = "t_0" := by decide
  refine ⟨?_, ?_, ?_⟩
  · rw [successiveNames_eq, List.getElem?_map, List.getElem?_range (by omega)]
    simp only [Option.map_some', hf, hp, h0, hz, hs]
  · rw [successiveNames_eq, List.getElem?_map, List.getElem?_range (by omega)]
    simp only [Option.map_some', hf, hp, h1, hz, hs]
  · intro hnd
    rw [successiveNames_eq] at hnd
    have := List.inj_on_of_nodup_map hnd (x := 0) (y := 18446744073709551616)
      (List.mem_range.2 (by omega)) (List.mem_range.2 (by omega))
      (by simp only [hf, h0, h1])
    omega

/-! ## Provisioning: `NewSchema` -/

/-- C6: when the pool hands out `conn` and each of the statements
create schema, set schema, create table (one per table name, in the caller's
order) succeeds as it is issued, `NewSchema` executes exactly these
`k + 2` statements on `conn` in this order, returns `conn`, reports no
failure and does not close `conn`. -/
theorem NewSchema_success (d : Driver σ) (f : Factory) (w : World σ) (tables : List String)
    (conn : Conn) (hconn : (d.conn w.db f.pool).2 = .ok conn)
    (hall : AllSucceed d conn (d.conn w.db f.pool).1
      (provisionStmts f.srcSchema (newSchemaName f).1 tables)) :
    (NewSchema d f w tables).2.2 = .ok conn ∧
    (NewSchema d f w tables).2.1.trace
      = w.trace ++
        Event.exec conn ("create schema " ++ (newSchemaName f).1) ::
        Event.exec conn ("set schema '" ++ (newSchemaName f).1 ++ "'") ::
        tables.map (fun t => Event.exec conn
          ("create table " ++ (newSchemaName f).1 ++ "." ++ t ++ " (like " ++ f.srcSchema
            ++ "." ++ t ++ " including all)")) ∧
    ((NewSchema d f w tables).2.1.trace.drop w.trace.length).length = tables.length + 2 ∧
    Event.close conn ∉ (NewSchema d f w tables).2.1.trace.drop w.trace.length := by
  obtain ⟨h1, h2, h3⟩ := hall
  have hx1 : (execContext d { w with db := (d.conn w.db f.pool).1 } conn
      ("create schema " ++ (newSchemaName f).1)).2 = none := h1
  have hx2 : (execContext d (execContext d { w with db := (d.conn w.db f.pool).1 } conn
      ("create schema " ++ (newSchemaName f).1)).1 conn
      ("set schema '" ++ (newSchemaName f).1 ++ "'")).2 = none := h2
  have h4 := createTables_ok d f.srcSchema (newSchemaName f).1 conn tables
    (execContext d (execContext d { w with db := (d.conn w.db f.pool).1 } conn
      ("create schema " ++ (newSchemaName f).1)).1 conn
      ("set schema '" ++ (newSchemaName f).1 ++ "'")).1 h3
  have hsrc : (newSchemaName f).2.srcSchema = f.srcSchema := rfl
  have key : (NewSchema d f w tables).2.2 = .ok conn ∧
      (NewSchema d f w tables).2.1.trace
        = w.trace ++
          Event.exec conn ("create schema " ++ (newSchemaName f).1) ::
          Event.exec conn ("set schema '" ++ (newSchemaName f).1 ++ "'") ::
          tables.map (fun t => Event.exec conn
            (createTableSQL (newSchemaName f).1 t f.srcSchema)) := by
    unfold NewSchema
    simp only [hconn, hx1, hx2, hsrc, h4.1]
    refine ⟨trivial, ?_⟩
    rw [h4.2]
    simp
  refine ⟨key.1, key.2, ?_, ?_⟩
  · rw [key.2]; simp
  · rw [key.2]; simp

/-- C6 (witness): two tables on a driver where every statement succeeds. -/
theorem NewSchema_success_witness :
    (((scripted 100 "t_0").conn (World.init 0).db (NewFactory 0 "public" "t").pool).2 = .ok 7 ∧
      AllSucceed (scripted 100 "t_0") 7
        ((scripted 100 "t_0").conn (World.init 0).db (NewFactory 0 "public" "t").pool).1
        (provisionStmts (NewFactory 0 "public" "t").srcSchema
          (newSchemaName (NewFactory 0 "public" "t")).1 ["a", "b"])) ∧
    (NewSchema (scripted 100 "t_0") (NewFactory 0 "public" "t") (World.init 0)
      ["a", "b"]).2.2 = .ok 7 :=
  ⟨⟨rfl, rfl, rfl, rfl, rfl, trivial⟩,
    (NewSchema_success (scripted 100 "t_0") (NewFactory 0 "public" "t") (World.init 0)
      ["a", "b"] 7 rfl ⟨rfl, rfl, rfl, rfl, trivial⟩).1⟩

/-- What `NewSchema` does once the pool has handed out `conn` and the first
statement to fail is `q`, after the statements `pre` succeeded. -/
theorem NewSchema_fail_core (d : Driver σ) (f : Factory) (w : World σ) (tables : List String)
    (conn : Conn) (pre : List String) (q : String) (post : List String) (err : String)
    (hconn : (d.conn w.db f.pool).2 = .ok conn)
    (hsplit : provisionStmts f.srcSchema (newSchemaName f).1 tables = pre ++ q :: post)
    (hpre : AllSucceed d conn (d.conn w.db f.pool).1 pre)
    (hfail : (d.execContext (dbAfter d conn (d.conn w.db f.pool).1 pre) conn q).2 = some err) :
    (NewSchema d f w tables).2.2 = .fatal err ∧
    (NewSchema d f w tables).2.1.trace
      = w.trace ++ ((pre ++ [q]).map (Event.exec conn) ++ [Event.close conn]) := by
  have hsrc : (newSchemaName f).2.srcSchema = f.srcSchema := rfl
  unfold provisionStmts at hsplit
  cases pre with
  | nil =>
    simp only [List.nil_append, List.cons.injEq] at hsplit
    obtain ⟨rfl, _⟩ := hsplit
    have hx1 : (execContext d { w with db := (d.conn w.db f.pool).1 } conn
        ("create schema " ++ (newSchemaName f).1)).2 = some err := hfail
    unfold NewSchema
    simp only [hconn, hx1]
    simp
  | cons p1 pre =>
    simp only [List.cons_append, List.cons.injEq] at hsplit
    obtain ⟨rfl, hsplit⟩ := hsplit
    obtain ⟨h1, hpre⟩ := hpre
    have hx1 : (execContext d { w with db := (d.conn w.db f.pool).1 } conn
        ("create schema " ++ (newSchemaName f).1)).2 = none := h1
    cases pre with
    | nil =>
      simp only [List.nil_append, List.cons.injEq] at hsplit
      obtain ⟨rfl, _⟩ := hsplit
      have hx2 : (execContext d (execContext d { w with db := (d.conn w.db f.pool).1 } conn
          ("create schema " ++ (newSchemaName f).1)).1 conn
          ("set schema '" ++ (newSchemaName f).1 ++ "'")).2 = some err := hfail
      unfold NewSchema
      simp only [hconn, hx1, hx2]
      simp
    | cons p2 pre =>
      simp only [List.cons_append, List.cons.injEq] at hsplit
      obtain ⟨rfl, hsplit⟩ := hsplit
      obtain ⟨h2, hpre⟩ := hpre
      have hx2 : (execContext d (execContext d { w with db := (d.conn w.db f.pool).1 } conn
          ("create schema " ++ (newSchemaName f).1)).1 conn
          ("set schema '" ++ (newSchemaName f).1 ++ "'")).2 = none := h2
      have h4 := createTables_fail d f.srcSchema (newSchemaName f).1 conn err pre tables q post
        (execContext d (execContext d { w with db := (d.conn w.db f.pool).1 } conn
          ("create schema " ++ (newSchemaName f).1)).1 conn
          ("set schema '" ++ (newSchemaName f).1 ++ "'")).1 hsplit hpre hfail
      unfold NewSchema
      simp only [hconn, hx1, hx2, hsrc, h4.1]
      refine ⟨trivial, ?_⟩
      rw [h4.2]
      simp

/-- C7: if `q` is the first statement issued by `NewSchema` to fail (the
statements `pre` before it succeeded), then `NewSchema` executes `pre` and `q`
and nothing after, closes the connection exactly once, ends in a fatal
failure with the executor's error (so returns no connection), and issues no
statement beginning with `drop schema`: what `pre` created is not undone. -/
theorem NewSchema_first_failure (d : Driver σ) (f : Factory) (w : World σ)
    (tables : List String) (conn : Conn) (pre : List String) (q : String)
    (post : List String) (err : String)
    (hconn : (d.conn w.db f.pool).2 = .ok conn)
    (hsplit : provisionStmts f.srcSchema (newSchemaName f).1 tables = pre ++ q :: post)
    (hpre : AllSucceed d conn (d.conn w.db f.pool).1 pre)
    (hfail : (d.execContext (dbAfter d conn (d.conn w.db f.pool).1 pre) conn q).2 = some err) :
    (NewSchema d f w tables).2.2 = .fatal err ∧
    (NewSchema d f w tables).2.1.trace.drop w.trace.length
      = (pre ++ [q]).map (Event.exec conn) ++ [Event.close conn] ∧
    ((NewSchema d f w tables).2.1.trace.drop w.trace.length).count (Event.close conn) = 1 ∧
    (∀ c sql, Event.exec c sql ∈ (NewSchema d f w tables).2.1.trace.drop w.trace.length →
      ¬ startsWith "drop schema" sql) := by
  obtain ⟨hres, htr⟩ :=
    NewSchema_fail_core d f w tables conn pre q post err hconn hsplit hpre hfail
  have hdrop : (NewSchema d f w tables).2.1.trace.drop w.trace.length
      = (pre ++ [q]).map (Event.exec conn) ++ [Event.close conn] := by
    rw [htr]; simp
  refine ⟨hres, hdrop, ?_, ?_⟩
  · rw [hdrop, List.count_append, List.count_eq_zero_of_not_mem]
    · simp
    · simp
  · intro c sql hmem
    rw [hdrop] at hmem
    simp only [List.mem_append, List.mem_map, List.mem_singleton, reduceCtorEq, or_false] at hmem
    obtain ⟨x, hx, hxe⟩ := hmem
    injection hxe with _ hxs
    subst hxs
    apply provisionStmts_not_drop f.srcSchema (newSchemaName f).1 tables
    rw [hsplit]
    rcases hx with hx | hx
    · exact List.mem_append_left _ hx
    · rw [hx]
      exact List.mem_append_right _ (List.mem_cons_self _ _)

/-- C7 (witness): two tables on a driver whose third statement, the first
`create table`, fails. -/
theorem NewSchema_first_failure_witness :
    (((scripted 2 "t_0").conn (World.init 0).db (NewFactory 0 "public" "t").pool).2 = .ok 7 ∧
      provisionStmts (NewFactory 0 "public" "t").srcSchema
          (newSchemaName (NewFactory 0 "public" "t")).1 ["a", "b"]
        = ["create schema t_0", "set schema 't_0'"] ++
          "create table t_0.a (like public.a including all)" ::
          ["create table t_0.b (like public.b including all)"] ∧
      AllSucceed (scripted 2 "t_0") 7
        ((scripted 2 "t_0").conn (World.init 0).db (NewFactory 0 "public" "t").pool).1
        ["create schema t_0", "set schema 't_0'"] ∧
      ((scripted 2 "t_0").execContext
        (dbAfter (scripted 2 "t_0") 7
          ((scripted 2 "t_0").conn (World.init 0).db (NewFactory 0 "public" "t").pool).1
          ["create schema t_0", "set schema 't_0'"]) 7
        "create table t_0.a (like public.a including all)").2 = some "boom") ∧
    (NewSchema (scripted 2 "t_0") (NewFactory 0 "public" "t") (World.init 0)
      ["a", "b"]).2.2 = .fatal "boom" :=
  ⟨⟨rfl, by decide, ⟨rfl, rfl, trivial⟩, rfl⟩,
    (NewSchema_first_failure (scripted 2 "t_0") (NewFactory 0 "public" "t") (World.init 0)
      ["a", "b"] 7 ["create schema t_0", "set schema 't_0'"]
      "create table t_0.a (like public.a including all)"
      ["create table t_0.b (like public.b including all)"] "boom"
      rfl (by decide) ⟨rfl, rfl, trivial⟩ rfl).1⟩

/-- C8: if the pool fails to hand out a connection, `NewSchema` ends in a
fatal failure with the pool's error, executes nothing on any connection,
prints nothing, and leaves the factory, its counter included, as it was. -/
theorem NewSchema_no_conn (d : Driver σ) (f : Factory) (w : World σ) (tables : List String)
    (err : String) (hconn : (d.conn w.db f.pool).2 = .error err) :
    (NewSchema d f w tables).2.2 = .fatal err ∧
    (NewSchema d f w tables).2.1.trace = w.trace ∧
    (NewSchema d f w tables).2.1.stdout = w.stdout ∧
    (NewSchema d f w tables).1 = f ∧
    (NewSchema d f w tables).1.schemaNumber = f.schemaNumber := by
  unfold NewSchema
  simp only [hconn]
  simp

/-- C8 (witness): a pool with no connection to give. -/
theorem NewSchema_no_conn_witness :
    (noConn.conn (World.init 0).db (NewFactory 0 "public" "t").pool).2 = .error "pool exhausted" ∧
    (NewSchema noConn (NewFactory 0 "public" "t") (World.init 0) ["a"]).2.2
      = .fatal "pool exhausted" ∧
    (NewSchema noConn (NewFactory 0 "public" "t") (World.init 0) ["a"]).1.schemaNumber = 0 :=
  ⟨rfl,
    (NewSchema_no_conn noConn (NewFactory 0 "public" "t") (World.init 0) ["a"]
      "pool exhausted" rfl).1,
    (NewSchema_no_conn noConn (NewFactory 0 "public" "t") (World.init 0) ["a"]
      "pool exhausted" rfl).2.2.2.2⟩

/-! ## Teardown: `Close` -/

/-- C1: when the current-schema query returns the factory's source schema,
`Close` ends in a fatal failure whose message names that schema and says it
is the same as the source schema, and after the query it executes nothing on
the connection: no statement at all, so no `drop schema`. -/
theorem Close_guards_source_schema (d : Driver σ) (f : Factory) (w : World σ) (conn : Conn)
    (hq : (d.queryRowScan w.db conn "select current_schema()").2 = .ok f.srcSchema) :
    (Close d f w conn).2 = .fatal ("found current schema was " ++ f.srcSchema
      ++ " (same as source schema), expected something else") ∧
    (Close d f w conn).1.trace = w.trace ++ [Event.queryRow conn "select current_schema()"] ∧
    (∀ c sql, Event.exec c sql ∉ (Close d f w conn).1.trace.drop w.trace.length) ∧
    (Close d f w conn).1.db = (d.queryRowScan w.db conn "select current_schema()").1 := by
  have hx : (queryRowScan d w conn "select current_schema()").2 = .ok f.srcSchema := hq
  unfold Close
  simp only [hx, if_true]
  simp [sameSchemaMsg]

/-- C1 (witness): a connection still bound to the source schema `public`. -/
theorem Close_guards_source_schema_witness :
    ((scripted 100 "public").queryRowScan (World.init 0).db 7 "select current_schema()").2
      = .ok (NewFactory 0 "public" "t").srcSchema ∧
    (Close (scripted 100 "public") (NewFactory 0 "public" "t") (World.init 0) 7).2
      = .fatal ("found current schema was " ++ (NewFactory 0 "public" "t").srcSchema
        ++ " (same as source schema), expected something else") ∧
    (Close (scripted 100 "public") (NewFactory 0 "public" "t") (World.init 0) 7).1.trace
      = (World.init 0).trace ++ [Event.queryRow 7 "select current_schema()"] :=
  ⟨rfl,
    (Close_guards_source_schema (scripted 100 "public") (NewFactory 0 "public" "t")
      (World.init 0) 7 rfl).1,
    (Close_guards_source_schema (scripted 100 "public") (NewFactory 0 "public" "t")
      (World.init 0) 7 rfl).2.1⟩

/-- C5: when the current-schema query returns a name `n` other than the
source schema, `Close` executes after the query exactly one statement,
`drop schema n cascade`, and ends in a fatal failure exactly when that
statement fails (with the statement's error). -/
theorem Close_drops_current_schema (d : Driver σ) (f : Factory) (w : World σ) (conn : Conn)
    (n : String)
    (hq : (d.queryRowScan w.db conn "select current_schema()").2 = .ok n)
    (hne : n ≠ f.srcSchema) :
    (Close d f w conn).1.trace.drop w.trace.length
      = [Event.queryRow conn "select current_schema()",
         Event.exec conn ("drop schema " ++ n ++ " cascade")] ∧
    ((∃ msg, (Close d f w conn).2 = .fatal msg) ↔
      (d.execContext (d.queryRowScan w.db conn "select current_schema()").1 conn
        ("drop schema " ++ n ++ " cascade")).2 ≠ none) ∧
    (∀ err, (d.execContext (d.queryRowScan w.db conn "select current_schema()").1 conn
        ("drop schema " ++ n ++ " cascade")).2 = some err →
      (Close d f w conn).2 = .fatal err) ∧
    ((d.execContext (d.queryRowScan w.db conn "select current_schema()").1 conn
        ("drop schema " ++ n ++ " cascade")).2 = none →
      (Close d f w conn).2 = .ok ()) := by
  have hx : (queryRowScan d w conn "select current_schema()").2 = .ok n := hq
  unfold Close
  simp only [hx, if_neg hne]
  cases hdrop : (d.execContext (d.queryRowScan w.db conn "select current_schema()").1 conn
      ("drop schema " ++ n ++ " cascade")).2 with
  | none =>
    have hy : (execContext d (queryRowScan d w conn "select current_schema()").1 conn
        ("drop schema " ++ n ++ " cascade")).2 = none := hdrop
    simp only [hy]
    simp
  | some e =>
    have hy : (execContext d (queryRowScan d w conn "select current_schema()").1 conn
        ("drop schema " ++ n ++ " cascade")).2 = some e := hdrop
    simp only [hy]
    simp

/-- C5 (witness): a connection bound to the provisioned schema `t_0`. -/
theorem Close_drops_current_schema_witness :
    (((scripted 100 "t_0").queryRowScan (World.init 0).db 7 "select current_schema()").2
        = .ok "t_0" ∧
      "t_0" ≠ (NewFactory 0 "public" "t").srcSchema) ∧
    (Close (scripted 100 "t_0") (NewFactory 0 "public" "t") (World.init 0) 7).1.trace.drop
        (World.init 0).trace.length
      = [Event.queryRow 7 "select current_schema()",
         Event.exec 7 ("drop schema " ++ "t_0" ++ " cascade")] :=
  ⟨⟨rfl, by decide⟩,
    (Close_drops_current_schema (scripted 100 "t_0") (NewFactory 0 "public" "t")
      (World.init 0) 7 "t_0" rfl (by decide)).1⟩

/-- C4 (failing input): a connection bound to the provisioned schema `t_0`,
on a driver where the query and the drop succeed: `Close` returns normally
after the query and the drop, and the connection was closed zero times. -/
theorem Close_leaves_conn_open :
    (Close (scripted 100 "t_0") (NewFactory 0 "public" "t") (World.init 0) 7).2 = .ok () ∧
    (Close (scripted 100 "t_0") (NewFactory 0 "public" "t") (World.init 0) 7).1.trace
      = [Event.queryRow 7 "select current_schema()", Event.exec 7 "drop schema t_0 cascade"] ∧
    ((Close (scripted 100 "t_0") (NewFactory 0 "public" "t") (World.init 0) 7).1.trace).count
      (Event.close 7) = 0 := by
  decide

/-- C4 (what the code does): whatever the driver answers, `Close` appends to
the trace only the current-schema query and at most one `drop schema`
statement; it never calls `conn.Close`, on any connection, so the number of
times the connection was closed when `Close` finishes is zero, not one. -/
theorem Close_never_closes_conn (d : Driver σ) (f : Factory) (w : World σ) (conn : Conn) :
    (∀ c, Event.close c ∉ (Close d f w conn).1.trace.drop w.trace.length) ∧
    ((Close d f w conn).1.trace.drop w.trace.length).count (Event.close conn) = 0 ∧
    ∀ e ∈ (Close d f w conn).1.trace.drop w.trace.length,
      e = Event.queryRow conn "select current_schema()" ∨
        ∃ n, e = Event.exec conn ("drop schema " ++ n ++ " cascade") := by
  obtain ⟨evs, h1, h2, h3, h4⟩ := Close_events d f w conn
  have hd : (Close d f w conn).1.trace.drop w.trace.length = evs := by rw [h1]; simp
  rw [hd]
  exact ⟨h2, h3, h4⟩

/-! ## Sequences of `NewSchema` and `Close` calls -/

/-- C9 (amended): for every finite sequence of `NewSchema` and `Close` calls
on a factory whose counter `n` is an `int` and does not overflow during the
sequence (`n` plus the number of `NewSchema` calls that get a connection is
at most the largest `int`), each call succeeding or failing at any step: the
counter never decreases and never falls below `n`, `Close` leaves the factory
unchanged, every `NewSchema` that gets a connection advances the counter by
exactly one, and the names in the `create schema` statements issued over the
whole sequence are pairwise distinct. -/
theorem counter_monotone_names_distinct (d : Driver σ) (f : Factory) (w : World σ)
    (calls : List Call) (hlo : minInt ≤ f.schemaNumber)
    (hhi : f.schemaNumber + acquisitions d (f, w) calls ≤ maxInt) :
    (∀ pre c post, calls = pre ++ c :: post →
      f.schemaNumber ≤ (runCalls d (f, w) pre).1.schemaNumber ∧
      (runCalls d (f, w) pre).1.schemaNumber ≤ (runCalls d (f, w) (pre ++ [c])).1.schemaNumber ∧
      (∀ conn, c = Call.close conn →
        (runCalls d (f, w) (pre ++ [c])).1 = (runCalls d (f, w) pre).1) ∧
      (∀ tbls conn, c = Call.newSchema tbls →
        (d.conn (runCalls d (f, w) pre).2.db (runCalls d (f, w) pre).1.pool).2 = .ok conn →
        (runCalls d (f, w) (pre ++ [c])).1.schemaNumber
          = (runCalls d (f, w) pre).1.schemaNumber + 1)) ∧
    (createdSchemas ((runCalls d (f, w) calls).2.trace.drop w.trace.length)).Nodup := by
  constructor
  · intro pre c post hcalls
    have hcount : acquisitions d (f, w) calls
        = acquisitions d (f, w) pre + acquisitions d (runCalls d (f, w) pre) (c :: post) := by
      rw [hcalls, acquisitions_append]
    have hcons : acquisitions d (runCalls d (f, w) pre) (c :: post)
        = (if acquires d (runCalls d (f, w) pre) c then 1 else 0)
          + acquisitions d (runCall d (runCalls d (f, w) pre) c) post := rfl
    obtain ⟨hf1, _⟩ := runCalls_invariant d pre f w hlo (by omega)
    have hnum : (runCalls d (f, w) pre).1.schemaNumber
        = f.schemaNumber + acquisitions d (f, w) pre := by rw [hf1]
    have happ : runCalls d (f, w) (pre ++ [c]) = runCall d (runCalls d (f, w) pre) c := by
      simp [runCalls, List.foldl_append]
    rw [happ]
    refine ⟨by omega, ?_⟩
    cases c with
    | close conn =>
      refine ⟨Int.le_refl _, fun _ _ => rfl, ?_⟩
      intro tbls conn hc
      cases hc
    | newSchema tbls =>
      have hrun : (runCall d (runCalls d (f, w) pre) (Call.newSchema tbls)).1
          = (NewSchema d (runCalls d (f, w) pre).1 (runCalls d (f, w) pre).2 tbls).1 := rfl
      have hfac := NewSchema_factory d (runCalls d (f, w) pre).1 (runCalls d (f, w) pre).2 tbls
      have hdef : acquires d (runCalls d (f, w) pre) (Call.newSchema tbls)
          = match (d.conn (runCalls d (f, w) pre).2.db (runCalls d (f, w) pre).1.pool).2 with
            | .ok _ => true
            | .error _ => false := rfl
      rw [hrun, hfac]
      rw [hdef] at hcons
      cases hconn : (d.conn (runCalls d (f, w) pre).2.db (runCalls d (f, w) pre).1.pool).2 with
      | error e =>
        refine ⟨Int.le_refl _, ?_, ?_⟩
        · intro conn hc; cases hc
        · intro _ conn _ hc; cases hc
      | ok conn =>
        simp only [hconn, if_true] at hcons
        have hw : wrapInt ((runCalls d (f, w) pre).1.schemaNumber + 1)
            = (runCalls d (f, w) pre).1.schemaNumber + 1 :=
          wrapInt_of_inRange _ (by omega) (by omega)
        have hnew : (newSchemaName (runCalls d (f, w) pre).1).2.schemaNumber
            = (runCalls d (f, w) pre).1.schemaNumber + 1 := hw
        refine ⟨?_, ?_, ?_⟩
        · show _ ≤ (newSchemaName (runCalls d (f, w) pre).1).2.schemaNumber
          omega
        · intro conn hc; cases hc
        · intro _ _ _ _
          exact hnew
  · obtain ⟨_, evs, htr, hcr⟩ := runCalls_invariant d calls f w hlo hhi
    have hd : (runCalls d (f, w) calls).2.trace.drop w.trace.length = evs := by
      rw [htr]; simp
    rw [hd, hcr]
    exact names_nodup _ _ _

/-- C9 (witness): a fresh factory, a provisioning with one table, a release,
and a provisioning with no table, on a driver where every call succeeds. -/
theorem counter_monotone_names_distinct_witness :
    (minInt ≤ (NewFactory 0 "public" "t").schemaNumber ∧
      (NewFactory 0 "public" "t").schemaNumber
        + acquisitions (scripted 100 "t_0") (NewFactory 0 "public" "t", World.init 0)
            [Call.newSchema ["a"], Call.close 7, Call.newSchema []] ≤ maxInt) ∧
    (createdSchemas ((runCalls (scripted 100 "t_0") (NewFactory 0 "public" "t", World.init 0)
      [Call.newSchema ["a"], Call.close 7, Call.newSchema []]).2.trace.drop
        (World.init 0).trace.length)).Nodup :=
  ⟨⟨by decide, by decide⟩,
    (counter_monotone_names_distinct (scripted 100 "t_0") (NewFactory 0 "public" "t")
      (World.init 0) [Call.newSchema ["a"], Call.close 7, Call.newSchema []]
      (by decide) (by decide)).2⟩

/-- C9 (counterexample): one `NewSchema` call that gets a connection, on a
factory whose counter is the largest `int`: the counter wraps around to the
smallest `int`, so it decreased and did not advance by one. -/
theorem counter_decreases_at_maxInt :
    ((scripted 100 "t_0").conn (World.init 0).db exhausted.pool).2 = .ok 7 ∧
    (runCalls (scripted 100 "t_0") (exhausted, World.init 0)
      [Call.newSchema []]).1.schemaNumber = -9223372036854775808 ∧
    (runCalls (scripted 100 "t_0") (exhausted, World.init 0)
      [Call.newSchema []]).1.schemaNumber < exhausted.schemaNumber ∧
    (runCalls (scripted 100 "t_0") (exhausted, World.init 0)
      [Call.newSchema []]).1.schemaNumber ≠ exhausted.schemaNumber + 1 :=
  ⟨rfl, by decide, by decide, by decide⟩

end Schemata
